import Mathlib

/-!
# Verification of the `proof_bot` lead-scraping pipeline

Shallow embedding of the pure computational core of the `proof_bot`
repository (`models.py`, `utils.py`, `scraper.py`) together with proofs
about it.  Python strings are modelled by Lean `String` (ASCII
behaviour), Python `None`-able fields by `Option`, Python truthiness by
explicit `Bool`-valued predicates, and Python `dict`s of selectors by an
association-list tree.  The asynchronous rate limiter is modelled by a
discrete-time schedule of lock-serialized sections.
-/

namespace ProofBot

/-! ## String helpers (Python `.strip().lower()`, `in`, truthiness) -/

/-- Python `needle in hay` on strings: substring containment, scanning
left to right over the character list. -/
def hasSubstr (hay needle : List Char) : Bool :=
  match hay with
  | [] => needle.isEmpty
  | _ :: t => needle.isPrefixOf hay || hasSubstr t needle

/-- Python `str.strip()`: drop whitespace from both ends. -/
def pyStrip (s : String) : String :=
  String.mk (((s.toList.dropWhile Char.isWhitespace).reverse.dropWhile
    Char.isWhitespace).reverse)

/-- Python `str.lower()` (ASCII model): lower-case every character. -/
def pyLower (s : String) : String :=
  String.mk (s.toList.map Char.toLower)

/-- Python truthiness of an optional string: `None` and `""` are falsy. -/
def optStrTruthy : Option String → Bool
  | none => false
  | some s => !(s == "")

/-- Python truthiness of an optional integer: `None` and `0` are falsy. -/
def optIntTruthy : Option Int → Bool
  | none => false
  | some n => !(n == 0)

/-! ## Data model (`models.py`): the `Lead` dataclass -/

/-- An officer dict from Companies House: the scraper only ever reads the
`name` and `role` keys, `o.get(...)` returning `None` when absent. -/
structure Officer where
  name : Option String := none
  role : Option String := none
  deriving DecidableEq, Repr

/-- The `Lead` dataclass of `models.py`.  `scraped_at` (a `datetime`) is
modelled as a natural-number timestamp; `data_quality_score` (a Python
float that only ever holds small integer values, including the `-1`
sentinel) as `Int`; `ideal_customer_profile_match` as `ℚ`. -/
structure Lead where
  company_name : String := ""
  website : String := ""
  location : String := ""
  source : String := ""
  scraped_at : Nat := 0
  phone_number : Option String := none
  email : Option String := none
  linkedin : Option String := none
  twitter : Option String := none
  facebook : Option String := none
  instagram : Option String := none
  ceo_name : Option String := none
  ceo_linkedin : Option String := none
  sales_director : Option String := none
  marketing_director : Option String := none
  employee_count : Option Int := none
  annual_revenue : Option String := none
  founded_year : Option Int := none
  industry_awards : List String := []
  key_clients : List String := []
  technologies_used : List String := []
  status : Option String := none
  company_type : Option String := none
  incorporation_date : Option String := none
  sic_codes : Option String := none
  accounts_next : Option String := none
  accounts_last : Option String := none
  confirmation_next : Option String := none
  confirmation_last : Option String := none
  officers : List Officer := []
  phone_verified : Bool := false
  email_verified : Bool := false
  robots_txt_status : String := "Unchecked"
  screenshot_path : Option String := none
  data_quality_score : Int := 0
  trigger_events : List String := []
  pain_points : List String := []
  ideal_customer_profile_match : ℚ := 0
  estimated_deal_size : Option String := none
  deriving DecidableEq, Repr

/-! ## `Lead.calculate_quality_score` (`models.py`, lines 70-82) -/

/-- The `weights` dict of `calculate_quality_score`, in insertion order;
each entry pairs the Python truthiness test of `getattr(self, field)`
with the field's weight. -/
def qualityWeights : List ((Lead → Bool) × Int) :=
  [(fun l => optStrTruthy l.phone_number, 20),
   (fun l => optStrTruthy l.email, 20),
   (fun l => optStrTruthy l.linkedin, 15),
   (fun l => optStrTruthy l.ceo_name, 15),
   (fun l => optIntTruthy l.employee_count, 10),
   (fun l => l.phone_verified, 10),
   (fun l => l.email_verified, 10)]

/-- The score accumulation loop of `calculate_quality_score`. -/
def qualityScoreOf (l : Lead) : Int :=
  qualityWeights.foldl (fun score fw => if fw.1 l then score + fw.2 else score) 0

/-- `Lead.calculate_quality_score`: recompute `data_quality_score` from
the current field values, mutating only that field. -/
def calculateQualityScore (l : Lead) : Lead :=
  { l with data_quality_score := qualityScoreOf l }

/-! ## SIC-code extraction (`scraper.py`, `_extract_sic_codes_list`) -/

/-- A regex word character (`\w`, ASCII model): letter, digit or `_`. -/
def isWordChar (c : Char) : Bool :=
  c.isAlphanum || c == '_'

/-- The left word-boundary test `\b` before a digit: satisfied at the
start of the text or after a non-word character. -/
def boundaryBefore : Option Char → Bool
  | none => true
  | some p => !isWordChar p

/-- The right word-boundary test `\b` after a digit: satisfied at the
end of the text or before a non-word character. -/
def boundaryAfter : List Char → Bool
  | [] => true
  | c :: _ => !isWordChar c

/-- `re.findall(r"\b(\d{5})\b", text)`: scan left to right, emitting each
maximal-boundary 5-digit run and resuming after it.  `prev` is the
character just before the current position. -/
def findFiveDigit : Option Char → List Char → List String
  | _, [] => []
  | prev, c1 :: c2 :: c3 :: c4 :: c5 :: rest =>
    if (c1.isDigit && c2.isDigit && c3.isDigit && c4.isDigit && c5.isDigit)
        && boundaryBefore prev && boundaryAfter rest then
      String.mk [c1, c2, c3, c4, c5] :: findFiveDigit (some c5) rest
    else
      findFiveDigit (some c1) (c2 :: c3 :: c4 :: c5 :: rest)
  | _, c :: rest => findFiveDigit (some c) rest

/-- `list(dict.fromkeys(codes))`: de-duplicate keeping first occurrences. -/
def dedupKeepOrder (l : List String) : List String :=
  l.foldl (fun acc s => if acc.contains s then acc else acc ++ [s]) []

/-- `EliteWebScraper._extract_sic_codes_list`: all 5-digit tokens of the
text, de-duplicated preserving first-seen order; empty for the falsy
string and for the literal `"Unknown"`. -/
def extractSicCodesList (sicText : String) : List String :=
  if sicText == "" || sicText == "Unknown" then []
  else dedupKeepOrder (findFiveDigit none sicText.toList)

/-! ## ICP scoring (`scraper.py`, `_address_matches`, `_sic_matches_target`,
`_compute_icp_score`) -/

/-- `EliteWebScraper._address_matches`: an empty configured target
location matches everything, otherwise substring test on the lower-cased
trimmed strings. -/
def addressMatches (targetLocation : String) (address : String) : Bool :=
  let loc := pyLower (pyStrip targetLocation)
  if loc == "" then true
  else hasSubstr (pyLower (pyStrip address)).toList loc.toList

/-- `EliteWebScraper._sic_matches_target`: an empty configured target
code set matches everything, otherwise the extracted codes must
intersect it. -/
def sicMatchesTarget (targetSicCodes : List String) (sicText : String) : Bool :=
  if targetSicCodes.isEmpty then true
  else (extractSicCodesList sicText).any (fun c => targetSicCodes.contains c)

/-- `round(x, 2)` on exact rationals: round to 2 decimal places. -/
def roundTo2 (q : ℚ) : ℚ :=
  ((round (q * 100) : ℤ) : ℚ) / 100

/-- `EliteWebScraper._compute_icp_score`: weighted binary industry and
geography match, rounded to two decimals. -/
def computeIcpScore (targetSicCodes : List String) (targetLocation : String)
    (sicText address : String) : ℚ :=
  let industryMatch : ℚ := if sicMatchesTarget targetSicCodes sicText then 1 else 0
  let geoMatch : ℚ := if addressMatches targetLocation address then 1 else 0
  roundTo2 (7/10 * industryMatch + 3/10 * geoMatch)

/-! ## Deduplication (`scraper.py`, `run_scraper` lines 1222-1228) -/

/-- The dedup key: `(lead.company_name or "").strip().lower()`. -/
def dedupKey (l : Lead) : String :=
  pyLower (pyStrip l.company_name)

/-- The dedup loop of `run_scraper`, carrying the `seen` set and the
`unique_leads` accumulator: `if key and key not in seen`. -/
def dedupGo (seen : List String) (out : List Lead) : List Lead → List Lead
  | [] => out
  | l :: rest =>
    if dedupKey l ≠ "" ∧ dedupKey l ∉ seen then
      dedupGo (dedupKey l :: seen) (out ++ [l]) rest
    else
      dedupGo seen out rest

/-- Deduplication by company name in `run_scraper`: keep a lead only if
its key is non-empty and not seen before. -/
def dedupLeads (leads : List Lead) : List Lead :=
  dedupGo [] [] leads

/-! ## Selector merging (`scraper.py`, `_merge_selectors`) -/

/-- A selector specification: a JSON-like tree of string leaves (also
covering lists and other non-dict values, opaque to the merge) and
nested mappings with ordered keys. -/
inductive SelVal where
  | leaf (s : String) : SelVal
  | node (entries : List (String × SelVal)) : SelVal

/-- First-match lookup of a key in an ordered mapping (Python `dict`s
have unique keys, so first match is the only match). -/
def selLookup (k : String) : List (String × SelVal) → Option SelVal
  | [] => none
  | (k', v) :: rest => if k' == k then some v else selLookup k rest

/-- The `for key, value in default.items()` loop of `_merge_selectors`:
an overriding value replaces the default unless both are nested
mappings, in which case the full merge (loop plus extra-key append)
recurses on them. -/
def mergeSelsMain (loaded : List (String × SelVal)) :
    List (String × SelVal) → List (String × SelVal)
  | [] => []
  | (k, dv) :: rest =>
    match selLookup k loaded, dv with
    | some (SelVal.node le), SelVal.node de =>
      (k, SelVal.node (mergeSelsMain le de
        ++ le.filter (fun p => (selLookup p.1 de).isNone))) :: mergeSelsMain loaded rest
    | some lv, _ => (k, lv) :: mergeSelsMain loaded rest
    | none, _ => (k, dv) :: mergeSelsMain loaded rest
  termination_by l => sizeOf l

/-- `EliteWebScraper._merge_selectors`: run the merge loop over the
defaults, then append the loaded keys absent from the defaults, in
loaded order. -/
def mergeSelectors (loaded default : List (String × SelVal)) :
    List (String × SelVal) :=
  mergeSelsMain loaded default
    ++ loaded.filter (fun p => (selLookup p.1 default).isNone)

/-! ## CEO selection (`scraper.py`, `_choose_ceo_from_officers`) -/

/-- The `preferred` keyword list of `_choose_ceo_from_officers`, in
source order. -/
def preferredTitles : List String :=
  ["chief executive officer", "chief executive", "ceo", "managing director",
   "director", "owner", "founder", "proprietor"]

/-- The keyword test of the selection loop: some preferred keyword is a
substring of the lower-cased role. -/
def officerRoleMatches (o : Officer) : Bool :=
  preferredTitles.any (fun p => hasSubstr (pyLower (o.role.getD "")).toList p.toList)

/-- The stripped officer name read by the selection loop. -/
def officerName (o : Officer) : String :=
  pyStrip (o.name.getD "")

/-- The `for o in officers` loop of `_choose_ceo_from_officers`: return
the first officer whose role matches a keyword and whose stripped name
is non-empty. -/
def chooseCeoLoop : List Officer → Option String
  | [] => none
  | o :: rest =>
    if officerRoleMatches o && !(officerName o == "") then some (officerName o)
    else chooseCeoLoop rest

/-- `EliteWebScraper._choose_ceo_from_officers`: `None` on an empty
list; otherwise the loop result, falling back to the first officer's
raw `name` value. -/
def chooseCeoFromOfficers (officers : List Officer) : Option String :=
  match officers with
  | [] => none
  | first :: _ =>
    match chooseCeoLoop officers with
    | some n => some n
    | none => first.name

/-! ## Enrichment final filter (`scraper.py`, `enrich_lead_data`
lines 1099-1108) -/

/-- The tail of `enrich_lead_data`: when target SIC codes are configured
and the lead's codes do not match, set the `-1` sentinel score and
return; otherwise recompute the quality score.  (The preceding network
enrichment steps are reflected in the incoming lead's fields.) -/
def enrichFinalize (targetSicCodes : List String) (l : Lead) : Lead :=
  if !targetSicCodes.isEmpty && !sicMatchesTarget targetSicCodes (l.sic_codes.getD "") then
    { l with data_quality_score := -1 }
  else
    calculateQualityScore l

/-! ## Result aggregation (`scraper.py`, `run_scraper` lines 1234-1250) -/

/-- One enrichment task outcome as seen by
`asyncio.gather(..., return_exceptions=True)`: either the enriched lead
or the exception message. -/
abbrev EnrichResult := Except String Lead

/-- The `for result in results` loop of `run_scraper`: exceptions are
logged and skipped, leads with a negative quality score are filtered
out, the rest are appended to `enriched_leads` in order. -/
def collectEnriched : List EnrichResult → List Lead
  | [] => []
  | Except.error _ :: rest => collectEnriched rest
  | Except.ok lead :: rest =>
    if 0 ≤ lead.data_quality_score then lead :: collectEnriched rest
    else collectEnriched rest

/-- The sort key order of `enriched_leads.sort(key=..., reverse=True)`:
descending by `data_quality_score`. -/
def scoreGE (a b : Lead) : Prop :=
  b.data_quality_score ≤ a.data_quality_score

instance : DecidableRel scoreGE := fun a b =>
  inferInstanceAs (Decidable (b.data_quality_score ≤ a.data_quality_score))

/-- `list.sort(key=lambda x: x.data_quality_score, reverse=True)`:
Python's sort is stable, so it is modelled by a stable descending
insertion sort. -/
def sortByScoreDesc (leads : List Lead) : List Lead :=
  List.insertionSort scoreGE leads

/-- The post-enrichment pipeline of `run_scraper`: collect the gather
results (dropping errors and negative-score leads) and sort the rest
descending by quality score. -/
def finalAggregate (results : List EnrichResult) : List Lead :=
  sortByScoreDesc (collectEnriched results)

/-! ## Domain rate limiter (`utils.py`, `DomainRateLimiter`) -/

/-- Timing of one `DomainRateLimiter.wait(url)` critical section for a
fixed domain, from the code: `now - last` is compared against
`min_delay`, the task sleeps the shortfall, and `_last_at` is set to the
post-sleep clock — the request itself is issued only after the lock is
released.  With `now` the lock-acquisition time and `last` the stored
timestamp, the post-sleep time is `max now (last + minDelay)`. -/
def waitStart (minDelay last now : ℕ) : ℕ :=
  max now (last + minDelay)

/-- Schedule of consecutive `wait`-gated requests to one domain: each
entry of `ready` is the time that task reaches the lock (in lock-grant
order, at earliest when the previous holder releases, which happens at
its post-sleep time).  Returns the request start times. -/
def waitSchedule (minDelay : ℕ) (last : ℕ) : List ℕ → List ℕ
  | [] => []
  | r :: rs =>
    let start := waitStart minDelay last (max r last)
    start :: waitSchedule minDelay start rs

/-- Schedule of consecutive `acquire`/`release`-gated requests to one
domain: the lock is held for the whole request, `release` stamps
`_last_at` with the completion time.  Each task is given its
lock-arrival time and its request duration; returns `(start, finish)`
pairs. -/
def acquireSchedule (minDelay : ℕ) (last : ℕ) : List (ℕ × ℕ) → List (ℕ × ℕ)
  | [] => []
  | (r, d) :: rest =>
    let start := waitStart minDelay last (max r last)
    let fin := start + d
    (start, fin) :: acquireSchedule minDelay fin rest

/-- In-flight interval of a `wait`-gated request: it runs outside the
lock, starting at the schedule's start time for the given duration. -/
def inFlight (start duration t : ℕ) : Prop :=
  start ≤ t ∧ t < start + duration

/-! ## Spec-side comparison models -/

/-- The spec's words for decision-maker inference: pick the most senior
officer by keyword match over the fixed priority order of titles (CEO
variants before managing director before director before owner/founder),
falling back to the first officer in list order when no title matches.
Here the outer scan is over the priority-ordered keywords, so an officer
matching a higher-priority title wins over an earlier officer matching a
lower-priority one. -/
def chooseCeoSpecModel (officers : List Officer) : Option String :=
  match officers with
  | [] => none
  | first :: _ =>
    match preferredTitles.findSome? (fun p =>
        (officers.find? (fun o =>
          hasSubstr (pyLower (o.role.getD "")).toList p.toList
            && !(officerName o == ""))).map officerName) with
    | some n => some n
    | none => first.name

/-- The successful-lead projection of a gather outcome. -/
def exceptOk : EnrichResult → Option Lead
  | Except.ok l => some l
  | Except.error _ => none

/-- The all-successful enrichment pass over the deduplicated leads, as
seen by `asyncio.gather`: every task returns its (finalized) lead. -/
def enrichAll (targetSicCodes : List String) (leads : List Lead) : List EnrichResult :=
  leads.map (fun l => Except.ok (enrichFinalize targetSicCodes l))

/-- The score-equality test used to state sort stability. -/
def scoreIs (s : Int) (l : Lead) : Bool :=
  l.data_quality_score == s

instance : IsTotal Lead scoreGE :=
  ⟨fun a b => le_total b.data_quality_score a.data_quality_score⟩

instance : IsTrans Lead scoreGE :=
  ⟨fun _ _ _ hab hbc => le_trans hbc hab⟩

/-! ## Theorems -/

lemma qualityFold (l : Lead) (ws : List ((Lead → Bool) × Int)) (init : Int) :
    ws.foldl (fun score fw => if fw.1 l then score + fw.2 else score) init
      = init + (ws.map (fun fw => if fw.1 l then fw.2 else (0 : Int))).sum := by
  induction ws generalizing init with
  | nil => simp
  | cons fw rest ih =>
    simp only [List.foldl_cons, List.map_cons, List.sum_cons, ih]
    split_ifs <;> ring

lemma qualityScoreOf_update (l : Lead) (x : Int) :
    qualityScoreOf { l with data_quality_score := x } = qualityScoreOf l := rfl

/-- C2: `calculate_quality_score` computes the weighted presence sum
(phone 20, email 20, linkedin 15, ceo_name 15, employee_count 10,
phone_verified 10, email_verified 10), writes it to
`data_quality_score` without touching any other field, and recomputing
twice without mutation yields the same record (idempotence). -/
theorem claim_C2_quality_score_weighted_sum_idempotent (l : Lead) :
    (calculateQualityScore l).data_quality_score =
        (if optStrTruthy l.phone_number then 20 else 0)
        + (if optStrTruthy l.email then 20 else 0)
        + (if optStrTruthy l.linkedin then 15 else 0)
        + (if optStrTruthy l.ceo_name then 15 else 0)
        + (if optIntTruthy l.employee_count then 10 else 0)
        + (if l.phone_verified then 10 else 0)
        + (if l.email_verified then 10 else 0)
      ∧ calculateQualityScore (calculateQualityScore l) = calculateQualityScore l := by
  constructor
  · show qualityScoreOf l = _
    simp only [qualityScoreOf, qualityFold, qualityWeights, List.map_cons, List.map_nil,
      List.sum_cons, List.sum_nil]
    split_ifs <;> ring
  · simp only [calculateQualityScore, qualityScoreOf_update]

/-- C5: the ICP score is the weighted binary sum
`0.7 × industryMatch + 0.3 × locationMatch` with the two-decimal
rounding exact on all four possible values, and its value on the two
concrete records of the claim is `1.0` and `0.0`. -/
theorem claim_C5_icp_score :
    (∀ (targetCodes : List String) (targetLoc sic addr : String),
        computeIcpScore targetCodes targetLoc sic addr =
          (if sicMatchesTarget targetCodes sic then 7/10 else 0)
            + (if addressMatches targetLoc addr then 3/10 else 0))
      ∧ computeIcpScore ["73110"] "london" "73110" "1 High St, London" = 1
      ∧ computeIcpScore ["73110"] "london" "62012" "Leeds" = 0 := by
  have key : ∀ (targetCodes : List String) (targetLoc sic addr : String),
      computeIcpScore targetCodes targetLoc sic addr =
        (if sicMatchesTarget targetCodes sic then 7/10 else 0)
          + (if addressMatches targetLoc addr then 3/10 else 0) := by
    intro targetCodes targetLoc sic addr
    unfold computeIcpScore
    cases hs : sicMatchesTarget targetCodes sic
      <;> cases ha : addressMatches targetLoc addr
      <;> norm_num [roundTo2, round_eq]
  refine ⟨key, ?_, ?_⟩
  · rw [key]
    have hs : sicMatchesTarget ["73110"] "73110" = true := by decide
    have ha : addressMatches "london" "1 High St, London" = true := by decide
    rw [hs, ha]
    norm_num
  · rw [key]
    have hs : sicMatchesTarget ["73110"] "62012" = false := by decide
    have ha : addressMatches "london" "Leeds" = false := by decide
    rw [hs, ha]
    norm_num

lemma waitSchedule_head_ge (m last : ℕ) (rs : List ℕ) :
    ∀ x ∈ (waitSchedule m last rs).head?, last + m ≤ x := by
  cases rs with
  | nil => simp [waitSchedule]
  | cons r rs =>
    intro x hx
    simp only [waitSchedule, List.head?_cons, Option.mem_def, Option.some.injEq] at hx
    subst hx
    exact le_max_right _ _

lemma waitSchedule_chain (m last : ℕ) (rs : List ℕ) :
    List.Chain' (fun a b => a + m ≤ b) (waitSchedule m last rs) := by
  induction rs generalizing last with
  | nil => simp [waitSchedule]
  | cons r rs ih =>
    rw [waitSchedule, List.chain'_cons']
    exact ⟨waitSchedule_head_ge m _ rs, ih _⟩

lemma acquireSchedule_head_ge (m last : ℕ) (ps : List (ℕ × ℕ)) :
    ∀ x ∈ (acquireSchedule m last ps).head?, last + m ≤ x.1 := by
  cases ps with
  | nil => simp [acquireSchedule]
  | cons p ps =>
    intro x hx
    simp only [acquireSchedule, List.head?_cons, Option.mem_def, Option.some.injEq] at hx
    subst hx
    exact le_max_right _ _

lemma acquireSchedule_chain (m last : ℕ) (ps : List (ℕ × ℕ)) :
    List.Chain' (fun a b => a.2 + m ≤ b.1) (acquireSchedule m last ps) := by
  induction ps generalizing last with
  | nil => simp [acquireSchedule]
  | cons p ps ih =>
    rw [acquireSchedule, List.chain'_cons']
    exact ⟨acquireSchedule_head_ge m _ ps, ih _⟩

/-- C1 counterexample: under `DomainRateLimiter.wait` (the method used by
`polite_goto` and the HTTP enrichment helpers), `_last_at` is stamped
*before* the request is issued and the per-domain lock is released before
the request runs.  With `minDelay = 2` and two tasks queued at time `0`,
the wait-sections schedule the requests at times `2` and `4`; if the
first request takes `10` time units (completing at `12`), the second
begins at `4`, which is *before* the first completes (so not `≥ minDelay`
after its completion), and at time `5` both requests (durations `10` and
`3`) are simultaneously in flight for the same domain. -/
theorem claim_C1_counterexample :
    waitSchedule 2 0 [0, 0] = [2, 4]
      ∧ 4 < 2 + 10
      ∧ inFlight 2 10 5 ∧ inFlight 4 3 5 := by
  refine ⟨by decide, by decide, ⟨by decide, by decide⟩, ⟨by decide, by decide⟩⟩

/-- C1 (amended): consecutive `wait`-gated request *starts* to one
domain are separated by at least `minDelay` (the stamp is taken at
request initiation, and the lock serializes the wait-sections), while
for `acquire`/`release`-gated requests the lock is held for the whole
request and `release` stamps the completion time, so each request starts
at least `minDelay` after the previous one *completed* (in particular at
most one such request is in flight per domain at a time). -/
theorem claim_C1_amended_rate_limiter_separation
    (minDelay last : ℕ) (readyTimes : List ℕ) (tasks : List (ℕ × ℕ)) :
    List.Chain' (fun a b => a + minDelay ≤ b) (waitSchedule minDelay last readyTimes)
      ∧ List.Chain' (fun a b => a.2 + minDelay ≤ b.1)
          (acquireSchedule minDelay last tasks) :=
  ⟨waitSchedule_chain minDelay last readyTimes,
   acquireSchedule_chain minDelay last tasks⟩

lemma collectEnriched_eq_filter (results : List EnrichResult) :
    collectEnriched results
      = (results.filterMap exceptOk).filter
          (fun l => decide (0 ≤ l.data_quality_score)) := by
  induction results with
  | nil => rfl
  | cons r rest ih =>
    cases r with
    | error e => simpa [collectEnriched, exceptOk] using ih
    | ok lead =>
      by_cases h : (0 : Int) ≤ lead.data_quality_score
      · simp [collectEnriched, exceptOk, h, ih, List.filter_cons]
      · simp [collectEnriched, exceptOk, h, ih, List.filter_cons]

lemma collectEnriched_error_middle (xs ys : List EnrichResult) (e : String) :
    collectEnriched (xs ++ Except.error e :: ys) = collectEnriched (xs ++ ys) := by
  simp [collectEnriched_eq_filter, exceptOk, List.filterMap_append]

/-- C9 counterexample: a record whose enrichment task raises is *not*
retained in the result set.  The gather outcome of a failed task is just
the exception, the collection loop skips it, and the final pipeline
output is empty — contradicting the claim that the failed record is
retained with partial data. -/
theorem claim_C9_counterexample :
    collectEnriched [Except.error "enrichment failed"] = []
      ∧ finalAggregate [Except.error "enrichment failed"] = [] :=
  ⟨rfl, rfl⟩

/-- C9 (amended): an enrichment failure is caught per-record
(`return_exceptions=True`) and skipped by the collection loop, so it
does not cancel or perturb sibling results — removing an error from the
gather results leaves the collected leads unchanged — but the failed
record itself is dropped from the result set, not retained.  The
collected output is exactly the successful leads with non-negative
score, in order. -/
theorem claim_C9_amended_failure_isolated_but_dropped
    (results xs ys : List EnrichResult) (e : String) :
    collectEnriched results
        = (results.filterMap exceptOk).filter
            (fun l => decide (0 ≤ l.data_quality_score))
      ∧ collectEnriched (xs ++ Except.error e :: ys) = collectEnriched (xs ++ ys) :=
  ⟨collectEnriched_eq_filter results, collectEnriched_error_middle xs ys e⟩

lemma chooseCeoLoop_eq_find (os : List Officer) :
    chooseCeoLoop os
      = (os.find? (fun o => officerRoleMatches o && !(officerName o == ""))).map
          officerName := by
  induction os with
  | nil => rfl
  | cons o rest ih =>
    by_cases h : (officerRoleMatches o && !(officerName o == "")) = true
    · simp [chooseCeoLoop, List.find?_cons, h]
    · simp [chooseCeoLoop, List.find?_cons, h, ih]

/-- C8 counterexample: the selection loop iterates over the *officers*
in list order and returns the first officer matching *any* leadership
keyword; it does not scan the titles in priority order.  With a
"Director" listed before a "Chief Executive Officer", the code returns
the director, while the claimed priority order (CEO variants before
director) would return the CEO. -/
theorem claim_C8_counterexample :
    chooseCeoFromOfficers
        [⟨some "Bob", some "Director"⟩, ⟨some "Alice", some "Chief Executive Officer"⟩]
        = some "Bob"
      ∧ chooseCeoSpecModel
          [⟨some "Bob", some "Director"⟩, ⟨some "Alice", some "Chief Executive Officer"⟩]
          = some "Alice" := by
  refine ⟨by decide, by decide⟩

/-- C8 (amended): for a non-empty officer list the code picks the
*first officer in list order* whose role contains any of the fixed
leadership keywords and whose stripped name is non-empty, falling back
to the first officer's raw name when no officer matches; an empty list
yields no name. -/
theorem claim_C8_amended_first_matching_officer (officers : List Officer) :
    chooseCeoFromOfficers officers =
      match officers with
      | [] => none
      | first :: _ =>
        match officers.find? (fun o => officerRoleMatches o && !(officerName o == "")) with
        | some o => some (officerName o)
        | none => first.name := by
  cases officers with
  | nil => rfl
  | cons first rest =>
    show (match chooseCeoLoop (first :: rest) with
      | some n => some n
      | none => first.name) = _
    rw [chooseCeoLoop_eq_find]
    cases (first :: rest).find? (fun o => officerRoleMatches o && !(officerName o == "")) with
    | none => rfl
    | some o => rfl

lemma dedupGo_append (rest : List Lead) :
    ∀ (seen : List String) (out : List Lead),
      dedupGo seen out rest = out ++ dedupGo seen [] rest := by
  induction rest with
  | nil => intro seen out; simp [dedupGo]
  | cons a rest ih =>
    intro seen out
    by_cases hc : dedupKey a ≠ "" ∧ dedupKey a ∉ seen
    · simp only [dedupGo, if_pos hc, List.nil_append]
      rw [ih _ (out ++ [a]), ih _ [a]]
      simp
    · simp only [dedupGo, if_neg hc]
      exact ih _ _

lemma dedupGo_mem (rest : List Lead) :
    ∀ (seen : List String) (l : Lead), l ∈ dedupGo seen [] rest →
      l ∈ rest ∧ ¬ dedupKey l = "" := by
  induction rest with
  | nil => intro seen l h; simp [dedupGo] at h
  | cons a rest ih =>
    intro seen l h
    by_cases hc : dedupKey a ≠ "" ∧ dedupKey a ∉ seen
    · rw [show dedupGo seen [] (a :: rest)
            = dedupGo (dedupKey a :: seen) ([] ++ [a]) rest from by
          simp only [dedupGo, if_pos hc], dedupGo_append, List.nil_append] at h
      rcases List.mem_append.mp h with h1 | h2
      · have hl : l = a := by simpa using h1
        subst hl
        exact ⟨List.mem_cons_self _ _, hc.1⟩
      · obtain ⟨hmem, hkey⟩ := ih _ _ h2
        exact ⟨List.mem_cons_of_mem _ hmem, hkey⟩
    · rw [show dedupGo seen [] (a :: rest) = dedupGo seen [] rest from by
          simp only [dedupGo, if_neg hc]] at h
      obtain ⟨hmem, hkey⟩ := ih _ _ h
      exact ⟨List.mem_cons_of_mem _ hmem, hkey⟩

lemma dedupGo_sublist (rest : List Lead) :
    ∀ (seen : List String), List.Sublist (dedupGo seen [] rest) rest := by
  induction rest with
  | nil => intro seen; simp [dedupGo]
  | cons a rest ih =>
    intro seen
    by_cases hc : dedupKey a ≠ "" ∧ dedupKey a ∉ seen
    · rw [show dedupGo seen [] (a :: rest)
            = dedupGo (dedupKey a :: seen) ([] ++ [a]) rest from by
          simp only [dedupGo, if_pos hc], dedupGo_append, List.nil_append]
      exact List.Sublist.cons₂ a (ih _)
    · rw [show dedupGo seen [] (a :: rest) = dedupGo seen [] rest from by
          simp only [dedupGo, if_neg hc]]
      exact List.Sublist.cons a (ih _)

lemma dedupGo_filter (k : String) (hk : ¬ k = "") (rest : List Lead) :
    ∀ (seen : List String),
      (dedupGo seen [] rest).filter (fun l => decide (dedupKey l = k))
        = if k ∈ seen then []
          else (rest.filter (fun l => decide (dedupKey l = k))).take 1 := by
  induction rest with
  | nil =>
    intro seen
    simp [dedupGo]
  | cons a rest ih =>
    intro seen
    by_cases hc : dedupKey a ≠ "" ∧ dedupKey a ∉ seen
    · rw [show dedupGo seen [] (a :: rest)
            = dedupGo (dedupKey a :: seen) ([] ++ [a]) rest from by
          simp only [dedupGo, if_pos hc], dedupGo_append, List.nil_append]
      by_cases hak : dedupKey a = k
      · have hseen : k ∉ seen := hak ▸ hc.2
        rw [List.filter_append, ih (dedupKey a :: seen)]
        rw [if_pos (by simp [hak]), if_neg hseen]
        simp [List.filter_cons, hak]
      · have hcons : (k ∈ dedupKey a :: seen) ↔ k ∈ seen := by
          constructor
          · intro h
            rcases List.mem_cons.mp h with h1 | h2
            · exact absurd h1.symm hak
            · exact h2
          · exact fun h => List.mem_cons_of_mem _ h
        rw [List.filter_append, ih (dedupKey a :: seen)]
        by_cases hs : k ∈ seen
        · rw [if_pos (hcons.mpr hs), if_pos hs]
          simp [List.filter_cons, hak]
        · rw [if_neg (fun h => hs (hcons.mp h)), if_neg hs]
          simp [List.filter_cons, hak]
    · rw [show dedupGo seen [] (a :: rest) = dedupGo seen [] rest from by
          simp only [dedupGo, if_neg hc]]
      by_cases hak : dedupKey a = k
      · have hseen : k ∈ seen := by
          rcases not_and_or.mp hc with h1 | h2
          · exact absurd (hak.trans rfl) (fun he => h1 (fun hne => hk (hak ▸ hne)))
          · exact hak ▸ not_not.mp h2
        rw [ih seen, if_pos hseen, if_pos hseen]
      · rw [ih seen]
        simp [List.filter_cons, hak]

/-- C4: deduplication keys each record by its lower-cased trimmed
company name; for every (non-empty) key, exactly the first record with
that key in source order survives and all later records with the same
key are discarded (the survivors keep source order), and of the two
records named `"Acme Ltd"` and `"acme ltd "` only the first-encountered
one survives. -/
theorem claim_C4_dedup_first_occurrence_wins
    (leads : List Lead) (k : String) (hk : ¬ k = "") :
    (dedupLeads leads).filter (fun l => decide (dedupKey l = k))
        = (leads.filter (fun l => decide (dedupKey l = k))).take 1
      ∧ List.Sublist (dedupLeads leads) leads
      ∧ dedupLeads [({ company_name := "Acme Ltd", source := "first" } : Lead),
            ({ company_name := "acme ltd ", source := "second" } : Lead)]
          = [({ company_name := "Acme Ltd", source := "first" } : Lead)] := by
  refine ⟨?_, dedupGo_sublist leads [], by decide⟩
  rw [dedupLeads, dedupGo_filter k hk leads []]
  simp

/-- C4 witness: at the two concrete Acme records with key
`"acme ltd"`, the filtered output of deduplication is the first record
alone. -/
theorem claim_C4_dedup_first_occurrence_wins_witness :
    (dedupLeads [({ company_name := "Acme Ltd", source := "first" } : Lead),
          ({ company_name := "acme ltd ", source := "second" } : Lead)]).filter
        (fun l => decide (dedupKey l = "acme ltd"))
      = ([({ company_name := "Acme Ltd", source := "first" } : Lead),
          ({ company_name := "acme ltd ", source := "second" } : Lead)].filter
            (fun l => decide (dedupKey l = "acme ltd"))).take 1 :=
  (claim_C4_dedup_first_occurrence_wins _ "acme ltd" (by decide)).1

/-- C10: a raw record whose company name is empty or whitespace-only
(its dedup key is the empty string) is silently discarded during
deduplication: every surviving record has a non-empty key, and a
whitespace-only record is dropped even when it is the only record. -/
theorem claim_C10_empty_name_discarded :
    (∀ (leads : List Lead) (l : Lead), l ∈ dedupLeads leads → (dedupKey l == "") = false)
      ∧ dedupKey ({ company_name := "   " } : Lead) = ""
      ∧ dedupLeads [({ company_name := "   " } : Lead)] = [] := by
  refine ⟨?_, by decide, by decide⟩
  intro leads l h
  have := (dedupGo_mem leads [] l h).2
  simpa [beq_eq_false_iff_ne] using this

/-- C10 witness: a surviving concrete record indeed has a non-empty
key. -/
theorem claim_C10_empty_name_discarded_witness :
    (dedupKey ({ company_name := "Acme Ltd" } : Lead) == "") = false :=
  claim_C10_empty_name_discarded.1 [({ company_name := "Acme Ltd" } : Lead)]
    ({ company_name := "Acme Ltd" } : Lead) (by decide)

lemma dedupKeepOrder_go (l : List String) :
    ∀ acc : List String,
      ∃ t, l.foldl (fun acc s => if acc.contains s then acc else acc ++ [s]) acc
          = acc ++ t
        ∧ List.Sublist t l
        ∧ (∀ x, x ∈ acc ++ t ↔ x ∈ acc ∨ x ∈ l)
        ∧ (acc.Nodup → (acc ++ t).Nodup) := by
  induction l with
  | nil =>
    intro acc
    exact ⟨[], by simp, List.Sublist.refl _, by simp, by simp⟩
  | cons s rest ih =>
    intro acc
    by_cases h : acc.contains s = true
    · have hs : s ∈ acc := by simpa using h
      obtain ⟨t, ht, hsub, hmem, hnd⟩ := ih acc
      refine ⟨t, by simpa [hs] using ht, List.Sublist.cons s hsub, ?_, hnd⟩
      intro x
      rw [hmem x]
      constructor
      · rintro (hx | hx)
        · exact Or.inl hx
        · exact Or.inr (List.mem_cons_of_mem _ hx)
      · rintro (hx | hx)
        · exact Or.inl hx
        · rcases List.mem_cons.mp hx with rfl | hx
          · exact Or.inl hs
          · exact Or.inr hx
    · have hs : s ∉ acc := by simpa using h
      obtain ⟨t, ht, hsub, hmem, hnd⟩ := ih (acc ++ [s])
      refine ⟨s :: t, ?_, List.Sublist.cons₂ s hsub, ?_, ?_⟩
      · simpa [hs] using ht
      · intro x
        have := hmem x
        simp only [List.append_assoc, List.singleton_append] at this
        rw [this]
        simp [List.mem_cons, or_assoc, or_comm, or_left_comm]
      · intro hacc
        have : (acc ++ [s]).Nodup := by
          simp [List.nodup_append, hacc, hs]
        simpa using hnd this

lemma dedupKeepOrder_nodup (l : List String) : (dedupKeepOrder l).Nodup := by
  obtain ⟨t, ht, _, _, hnd⟩ := dedupKeepOrder_go l []
  rw [dedupKeepOrder, ht]
  simpa using hnd List.nodup_nil

lemma dedupKeepOrder_sublist (l : List String) :
    List.Sublist (dedupKeepOrder l) l := by
  obtain ⟨t, ht, hsub, _, _⟩ := dedupKeepOrder_go l []
  rw [dedupKeepOrder, ht]
  simpa using hsub

lemma mem_dedupKeepOrder (l : List String) (x : String) :
    x ∈ dedupKeepOrder l ↔ x ∈ l := by
  obtain ⟨t, ht, _, hmem, _⟩ := dedupKeepOrder_go l []
  rw [dedupKeepOrder, ht]
  simpa using hmem x

lemma findFiveDigit_digits :
    ∀ (prev : Option Char) (l : List Char) (c : String), c ∈ findFiveDigit prev l →
      c.length = 5 ∧ c.toList.all Char.isDigit := by
  intro prev l
  induction prev, l using findFiveDigit.induct with
  | case1 prev =>
    intro c hc
    rw [findFiveDigit.eq_1] at hc
    simp at hc
  | case2 prev c1 c2 c3 c4 c5 rest hcond ih =>
    intro c hc
    rw [findFiveDigit.eq_2, if_pos hcond] at hc
    rcases List.mem_cons.mp hc with rfl | hc
    · refine ⟨rfl, ?_⟩
      simp only [Bool.and_eq_true] at hcond
      obtain ⟨⟨⟨⟨⟨⟨h1, h2⟩, h3⟩, h4⟩, h5⟩, hbb⟩, hba⟩ := hcond
      simp [String.toList, h1, h2, h3, h4, h5]
    · exact ih c hc
  | case3 prev c1 c2 c3 c4 c5 rest hcond ih =>
    intro c hc
    rw [findFiveDigit.eq_2, if_neg hcond] at hc
    exact ih c hc
  | case4 prev c rest hne ih =>
    intro x hx
    rw [findFiveDigit.eq_3 _ _ _ hne] at hx
    exact ih x hx

/-- C7: classification-code extraction returns exactly the 5-digit
tokens of the text (each extracted code is a 5-digit numeric string, and
a code is extracted iff the boundary-delimited scan finds it),
de-duplicated preserving first-seen order (no duplicates, order is a
sublist of the raw scan); the claim's concrete inputs evaluate as
stated. -/
theorem claim_C7_sic_code_extraction :
    extractSicCodesList "Nature of business: 73110, 62012 and 73110" = ["73110", "62012"]
      ∧ extractSicCodesList "" = []
      ∧ extractSicCodesList "Unknown" = []
      ∧ (∀ s : String, (extractSicCodesList s).Nodup
          ∧ List.Sublist (extractSicCodesList s) (findFiveDigit none s.toList))
      ∧ (∀ s : String, ¬ s = "" → ¬ s = "Unknown" →
          ∀ c : String, c ∈ extractSicCodesList s ↔ c ∈ findFiveDigit none s.toList)
      ∧ (∀ s c : String, c ∈ extractSicCodesList s →
          c.length = 5 ∧ c.toList.all Char.isDigit) := by
  refine ⟨by decide, by decide, by decide, ?_, ?_, ?_⟩
  · intro s
    by_cases h : (s == "" || s == "Unknown") = true
    · simp [extractSicCodesList, h]
    · rw [show extractSicCodesList s
            = dedupKeepOrder (findFiveDigit none s.toList) from by
          simp only [extractSicCodesList]
          rw [if_neg (by simpa using h)]]
      exact ⟨dedupKeepOrder_nodup _, dedupKeepOrder_sublist _⟩
  · intro s h1 h2 c
    rw [show extractSicCodesList s
          = dedupKeepOrder (findFiveDigit none s.toList) from by
        simp only [extractSicCodesList]
        rw [if_neg (by simp [h1, h2])]]
    exact mem_dedupKeepOrder _ c
  · intro s c hc
    by_cases h : (s == "" || s == "Unknown") = true
    · rw [show extractSicCodesList s = [] from by
          simp only [extractSicCodesList]
          rw [if_pos h]] at hc
      simp at hc
    · rw [show extractSicCodesList s
            = dedupKeepOrder (findFiveDigit none s.toList) from by
          simp only [extractSicCodesList]
          rw [if_neg (by simpa using h)]] at hc
      exact findFiveDigit_digits none s.toList c ((mem_dedupKeepOrder _ c).mp hc)

/-- C7 witness: the code `"73110"` extracted from the claim's example
text is a 5-digit numeric token. -/
theorem claim_C7_sic_code_extraction_witness :
    (("73110" : String) ∈ extractSicCodesList "Nature of business: 73110, 62012 and 73110"
        ↔ ("73110" : String) ∈ findFiveDigit none
            ("Nature of business: 73110, 62012 and 73110" : String).toList)
      ∧ ("73110" : String).length = 5 ∧ ("73110" : String).toList.all Char.isDigit :=
  ⟨claim_C7_sic_code_extraction.2.2.2.2.1
      "Nature of business: 73110, 62012 and 73110" (by decide) (by decide) "73110",
   claim_C7_sic_code_extraction.2.2.2.2.2
      "Nature of business: 73110, 62012 and 73110" "73110" (by decide)⟩

lemma selLookup_append (k : String) (a b : List (String × SelVal)) :
    selLookup k (a ++ b)
      = match selLookup k a with
        | some v => some v
        | none => selLookup k b := by
  induction a with
  | nil => simp [selLookup]
  | cons p rest ih =>
    obtain ⟨k', v⟩ := p
    by_cases h : (k' == k) = true
    · simp [selLookup, h]
    · simp only [Bool.not_eq_true] at h
      simp [selLookup, h, ih]

lemma selLookup_mergeSelsMain (loaded : List (String × SelVal)) (k : String) :
    ∀ default : List (String × SelVal),
      selLookup k (mergeSelsMain loaded default)
        = (selLookup k default).map (fun dv =>
            match selLookup k loaded, dv with
            | some (SelVal.node le), SelVal.node de => SelVal.node (mergeSelectors le de)
            | some lv, _ => lv
            | none, _ => dv) := by
  intro default
  induction default with
  | nil => simp [mergeSelsMain.eq_1, selLookup]
  | cons p rest ih =>
    obtain ⟨k', dv⟩ := p
    rw [mergeSelsMain.eq_def]
    by_cases hk : (k' == k) = true
    · have hkk : k' = k := by simpa [beq_iff_eq] using hk
      subst hkk
      cases hl : selLookup k' loaded with
      | none =>
        cases dv <;> simp [selLookup, hl, hk]
      | some lv =>
        cases lv with
        | leaf s => cases dv <;> simp [selLookup, hl, hk]
        | node le =>
          cases dv with
          | leaf s => simp [selLookup, hl, hk]
          | node de => simp [selLookup, hl, hk, mergeSelectors]
    · cases hl : selLookup k' loaded with
      | none =>
        cases dv <;> simp [selLookup, hl, hk, ih]
      | some lv =>
        cases lv with
        | leaf s => cases dv <;> simp [selLookup, hl, hk, ih]
        | node le =>
          cases dv with
          | leaf s => simp [selLookup, hl, hk, ih]
          | node de => simp [selLookup, hl, hk, ih]

lemma selLookup_extras (k : String) (default : List (String × SelVal))
    (h : selLookup k default = none) :
    ∀ loaded : List (String × SelVal),
      selLookup k (loaded.filter (fun p => (selLookup p.1 default).isNone))
        = selLookup k loaded := by
  intro loaded
  induction loaded with
  | nil => simp
  | cons p rest ih =>
    obtain ⟨k', v⟩ := p
    by_cases hk : (k' == k) = true
    · have hkk : k' = k := by simpa [beq_iff_eq] using hk
      subst hkk
      rw [List.filter_cons, if_pos (by simpa using congrArg Option.isNone h)]
      simp [selLookup, hk]
    · rw [List.filter_cons]
      by_cases hf : ((selLookup (k', v).1 default).isNone : Bool) = true
      · rw [if_pos hf]
        simp [selLookup, hk, ih]
      · rw [if_neg hf]
        simp [selLookup, hk, ih]

/-- C6: the selector merge starts from the defaults: a default key with
no loaded counterpart keeps its default value; a loaded (override) key
replaces the default at the leaf level regardless of the default's
shape; when both sides hold nested mappings the merge recurses; and a
key present only in the override is appended and resolves to its loaded
value. -/
theorem claim_C6_selector_merge (loaded default : List (String × SelVal)) (k : String) :
    (selLookup k loaded = none →
        selLookup k (mergeSelectors loaded default) = selLookup k default)
      ∧ (∀ s, selLookup k loaded = some (SelVal.leaf s) →
          selLookup k (mergeSelectors loaded default) = some (SelVal.leaf s))
      ∧ (∀ le de, selLookup k loaded = some (SelVal.node le) →
          selLookup k default = some (SelVal.node de) →
          selLookup k (mergeSelectors loaded default)
            = some (SelVal.node (mergeSelectors le de)))
      ∧ (∀ lv, selLookup k loaded = some lv → selLookup k default = none →
          selLookup k (mergeSelectors loaded default) = some lv) := by
  refine ⟨?_, ?_, ?_, ?_⟩
  · intro hl
    rw [mergeSelectors, selLookup_append, selLookup_mergeSelsMain]
    cases hd : selLookup k default with
    | none => simp [selLookup_extras k default hd loaded, hl]
    | some dv => cases dv <;> simp [hl]
  · intro s hl
    rw [mergeSelectors, selLookup_append, selLookup_mergeSelsMain]
    cases hd : selLookup k default with
    | none => simp [selLookup_extras k default hd loaded, hl]
    | some dv => cases dv <;> simp [hl]
  · intro le de hl hd
    rw [mergeSelectors, selLookup_append, selLookup_mergeSelsMain, hd, hl]
    simp
  · intro lv hl hd
    rw [mergeSelectors, selLookup_append, selLookup_mergeSelsMain, hd]
    simp [selLookup_extras k default hd loaded, hl]

/-- C6 witness: at a concrete merge where the override holds a leaf for
key `"a"`, the merged mapping resolves `"a"` to the override's leaf. -/
theorem claim_C6_selector_merge_witness :
    selLookup "b" (mergeSelectors [("a", SelVal.leaf "x")]
        [("b", SelVal.leaf "y")]) = selLookup "b" [("b", SelVal.leaf "y")]
      ∧ selLookup "a" (mergeSelectors [("a", SelVal.leaf "x")] [("a", SelVal.leaf "y")])
          = some (SelVal.leaf "x")
      ∧ selLookup "a" (mergeSelectors [("a", SelVal.node [("c", SelVal.leaf "x")])]
            [("a", SelVal.node [("c", SelVal.leaf "y")])])
          = some (SelVal.node (mergeSelectors [("c", SelVal.leaf "x")]
              [("c", SelVal.leaf "y")]))
      ∧ selLookup "a" (mergeSelectors [("a", SelVal.leaf "x")] [])
          = some (SelVal.leaf "x") :=
  ⟨(claim_C6_selector_merge [("a", SelVal.leaf "x")] [("b", SelVal.leaf "y")] "b").1 rfl,
   (claim_C6_selector_merge [("a", SelVal.leaf "x")] [("a", SelVal.leaf "y")] "a").2.1
     "x" rfl,
   (claim_C6_selector_merge [("a", SelVal.node [("c", SelVal.leaf "x")])]
       [("a", SelVal.node [("c", SelVal.leaf "y")])] "a").2.2.1
     [("c", SelVal.leaf "x")] [("c", SelVal.leaf "y")] rfl rfl,
   (claim_C6_selector_merge [("a", SelVal.leaf "x")] [] "a").2.2.2
     (SelVal.leaf "x") rfl rfl⟩

lemma filter_orderedInsert (a : Lead) (s : Int) (l : List Lead) :
    (List.orderedInsert scoreGE a l).filter (scoreIs s)
      = (a :: l).filter (scoreIs s) := by
  induction l with
  | nil => rfl
  | cons b l ih =>
    rw [List.orderedInsert]
    by_cases hr : scoreGE a b
    · rw [if_pos hr]
    · rw [if_neg hr]
      have hab : a.data_quality_score < b.data_quality_score := by
        simpa [scoreGE, not_le] using hr
      by_cases hb : scoreIs s b = true
      · have hsb : b.data_quality_score = s := by simpa [scoreIs] using hb
        have ha : scoreIs s a = false := by
          simp only [scoreIs, beq_eq_false_iff_ne, ne_eq]
          omega
        simp [List.filter_cons, hb, ha, ih]
      · simp only [Bool.not_eq_true] at hb
        simp [List.filter_cons, hb, ih]

lemma filter_sortByScoreDesc (s : Int) (l : List Lead) :
    (sortByScoreDesc l).filter (scoreIs s) = l.filter (scoreIs s) := by
  induction l with
  | nil => rfl
  | cons x l ih =>
    rw [sortByScoreDesc, List.insertionSort, filter_orderedInsert]
    rw [List.filter_cons, List.filter_cons]
    rw [show (List.insertionSort scoreGE l).filter (scoreIs s) = l.filter (scoreIs s)
      from ih]

lemma mem_collectEnriched (results : List EnrichResult) (x : Lead)
    (h : x ∈ collectEnriched results) : 0 ≤ x.data_quality_score := by
  rw [collectEnriched_eq_filter] at h
  simpa using (List.of_mem_filter h)

/-- C3: with a non-empty target SIC code set, a non-matching record is
finalized with the `-1` sentinel score rather than removed (the
enrichment pass is length-preserving), every record with a negative
quality score is absent from the aggregated output, and the output is
the collected records sorted descending by quality score with ties
keeping their collected (input) order: filtering the output by any
score value reproduces the pre-sort sublist unchanged. -/
theorem claim_C3_sentinel_filter_stable_sort
    (targetCodes : List String) (leads : List Lead) (results : List EnrichResult) :
    (enrichAll targetCodes leads).length = leads.length
      ∧ (∀ l : Lead, targetCodes ≠ [] →
          sicMatchesTarget targetCodes (l.sic_codes.getD "") = false →
          (enrichFinalize targetCodes l).data_quality_score = -1)
      ∧ (∀ x ∈ finalAggregate results, 0 ≤ x.data_quality_score)
      ∧ List.Sorted scoreGE (finalAggregate results)
      ∧ (∀ s : Int, (finalAggregate results).filter (scoreIs s)
          = (collectEnriched results).filter (scoreIs s)) := by
  refine ⟨?_, ?_, ?_, ?_, ?_⟩
  · simp [enrichAll]
  · intro l ht hs
    have hcond : (!targetCodes.isEmpty
        && !sicMatchesTarget targetCodes (l.sic_codes.getD "")) = true := by
      cases targetCodes with
      | nil => exact absurd rfl ht
      | cons c cs => simp [hs]
    rw [enrichFinalize, if_pos hcond]
  · intro x hx
    rw [finalAggregate] at hx
    exact mem_collectEnriched results x
      ((List.perm_insertionSort scoreGE _).mem_iff.mp hx)
  · exact List.sorted_insertionSort scoreGE _
  · intro s
    exact filter_sortByScoreDesc s _

/-- C3 witness: a concrete lead with SIC code `62012` against target
set `{73110}` is finalized with the `-1` sentinel. -/
theorem claim_C3_sentinel_filter_stable_sort_witness :
    (enrichFinalize ["73110"]
        ({ company_name := "NoMatch Ltd", sic_codes := some "62012" } : Lead)).data_quality_score
        = -1
      ∧ 0 ≤ ({ company_name := "Kept Ltd" } : Lead).data_quality_score :=
  ⟨(claim_C3_sentinel_filter_stable_sort ["73110"] [] []).2.1
     ({ company_name := "NoMatch Ltd", sic_codes := some "62012" } : Lead)
     (by decide) (by decide),
   (claim_C3_sentinel_filter_stable_sort ["73110"] []
       [Except.ok ({ company_name := "Kept Ltd" } : Lead)]).2.2.1
     ({ company_name := "Kept Ltd" } : Lead) (by decide)⟩

end ProofBot
